import Mathlib

/-!
Shallow embedding of the contour-based ASL letter recognition core of the
`inclusive-sign-translator` repository (files `src/model/finger_detection.py`,
`src/model/asl_letter_detector.py`, `src/model/simple_asl_detector.py`,
`src/model/improved_hand_detection.py`).

Numeric values (confidences, normalized coordinates, contour areas) are
embedded as rationals.  The relevant Python float comparisons are exact at
the thresholds used here: `5 * 0.6 == 3.0` holds in IEEE double arithmetic
(the product rounds to 3.0), and `np.sqrt(k) > 50` for an integer `k` is
equivalent to `k > 2500` since square root is monotone and exact at 2500.

The OpenCV stages (skin segmentation, `findContours`, `contourArea`,
`convexHull`, `moments`) are external library calls; their outputs for the
largest external contour of a frame are taken as the input data of the
embedded functions (`HandData` below), and the repository's own logic from
that point on is translated faithfully.
-/

namespace SignTranslator

/-- Gesture labels produced by the classifiers: the per-frame label is
always one of these strings in the source (`'A'`...`'E'`, `'Unknown'`). -/
inductive Letter where
  | A | B | C | D | E | Unknown
deriving DecidableEq, Repr, Fintype

/-- A normalized finger-tip point `[x / width, y / height, 0.0]` as built in
`FingerDetector._find_finger_tips`. -/
structure Tip where
  x : ℚ
  y : ℚ
  z : ℚ
deriving DecidableEq, Repr

/-- Ordering of tips by x-coordinate, as used by
`finger_tips.sort(key=lambda p: p[0])`. -/
def tipLE (a b : Tip) : Prop := a.x ≤ b.x

instance : DecidableRel tipLE := fun a b => inferInstanceAs (Decidable (a.x ≤ b.x))

instance : IsTotal Tip tipLE := ⟨fun a b => le_total a.x b.x⟩

instance : IsTrans Tip tipLE := ⟨fun _ _ _ h1 h2 => le_trans h1 h2⟩

/-- Data computed by the OpenCV stages for the largest external contour of
the skin mask: its area (`cv2.contourArea`), its convex-hull vertices
(`cv2.convexHull(..., returnPoints=True)`, integer pixel coordinates), and
its centroid from `cv2.moments` (`none` when the zeroth moment `m00` is 0,
in which case the source returns an empty tip list). -/
structure HandData where
  contourArea : ℚ
  hull : List (ℤ × ℤ)
  centroid : Option (ℤ × ℤ)

/-- `FingerDetector.min_contour_area` (5000). -/
def min_contour_area : ℚ := 5000

/-- `FingerDetector.max_contour_area` (50000).  Declared in the source's
constructor but never consulted by `detect_fingers`. -/
def max_contour_area : ℚ := 50000

/-- Finger-tip qualification test on a hull vertex, from
`FingerDetector._find_finger_tips`: Euclidean distance from the centroid
greater than 50 pixels (squared form, exact) and strictly above the
centroid (`y < center_y` in image coordinates). -/
def isTipCandidate (cx cy : ℤ) (p : ℤ × ℤ) : Bool :=
  decide (2500 < (p.1 - cx) * (p.1 - cx) + (p.2 - cy) * (p.2 - cy) ∧ p.2 < cy)

/-- Normalization `[x / image_shape[1], y / image_shape[0], 0.0]` of a pixel
point by the frame width `w` and height `h`. -/
def normalizeTip (h w : ℕ) (p : ℤ × ℤ) : Tip :=
  ⟨(p.1 : ℚ) / (w : ℚ), (p.2 : ℚ) / (h : ℚ), 0⟩

/-- `FingerDetector._find_finger_tips`: keep the qualifying hull vertices,
normalize them by the frame dimensions, sort by x-coordinate, and retain at
most 5.  Returns `[]` when the contour's zeroth moment is 0. -/
def findFingerTips (hull : List (ℤ × ℤ)) (centroid : Option (ℤ × ℤ))
    (h w : ℕ) : List Tip :=
  match centroid with
  | none => []
  | some (cx, cy) =>
      (List.insertionSort tipLE
        ((hull.filter (isTipCandidate cx cy)).map (normalizeTip h w))).take 5

/-- `FingerDetector.detect_fingers` from the contour stage onward.  The input
is `none` when `findContours` returned no contours; otherwise it is the data
of the largest contour.  The area gate only rejects areas below
`min_contour_area`; the upper bound `max_contour_area` is never tested.
A detection is reported only when at least 3 tips were found. -/
def detect_fingers (d : Option HandData) (h w : ℕ) : Option (List Tip) :=
  match d with
  | none => none
  | some hd =>
      if hd.contourArea < min_contour_area then none
      else if 3 ≤ (findFingerTips hd.hull hd.centroid h w).length then
        some (findFingerTips hd.hull hd.centroid h w)
      else none

/-- `ASLLetterDetector._distinguish_a_or_d`: with a single detected tip,
classify as A (thumb) when its normalized x is strictly below 0.4, else D. -/
def distinguish_a_or_d (tips : List Tip) : Letter × ℚ :=
  match tips with
  | [] => (Letter.A, 1/2)
  | t :: _ => if t.x < 2/5 then (Letter.A, 7/10) else (Letter.D, 7/10)

/-- `ASLLetterDetector._classify_by_finger_count`: the fixed decision table
on the finger count. -/
def classify_by_finger_count (n : ℕ) (tips : List Tip) : Letter × ℚ :=
  if n = 0 then (Letter.E, 4/5)
  else if n = 1 then distinguish_a_or_d tips
  else if n = 2 then (Letter.C, 3/5)
  else if n = 3 then (Letter.C, 7/10)
  else if n = 4 then (Letter.C, 3/5)
  else if n = 5 then (Letter.B, 4/5)
  else (Letter.Unknown, 0)

/-- The per-frame classification of `ASLLetterDetector.detect_asl_letter`
(lines 42-51): no finger detection is classified as a fist (`'E'`, 0.7),
otherwise the decision table is applied to the tip count. -/
def perFrameClassify (det : Option (List Tip)) : Letter × ℚ :=
  match det with
  | none => (Letter.E, 7/10)
  | some tips => classify_by_finger_count tips.length tips

/-- The per-frame classification viewed as a `ClassificationResult` with an
optional label, for comparison with the spec's `{label: none, confidence: 0}`
outcome.  The source's per-frame result always carries a concrete letter. -/
def perFrameResult (det : Option (List Tip)) : Option Letter × ℚ :=
  ((perFrameClassify det).1, (perFrameClassify det).2)

/-- `SimpleASLDetector.detect_letter` (label and confidence; the description
string is dropped).  No detection yields (`'E'`, 0.8); note this detector has
no explicit 0-finger row, so a detected count outside 1..5 is `Unknown`. -/
def simple_detect_letter (det : Option (List Tip)) : Letter × ℚ :=
  match det with
  | none => (Letter.E, 4/5)
  | some tips =>
      let n := tips.length
      if n = 1 then
        match tips with
        | [] => (Letter.Unknown, 0)
        | t :: _ => if t.x < 2/5 then (Letter.A, 7/10) else (Letter.D, 7/10)
      else if n = 2 then (Letter.C, 3/5)
      else if n = 3 then (Letter.C, 7/10)
      else if n = 4 then (Letter.C, 3/5)
      else if n = 5 then (Letter.B, 4/5)
      else (Letter.Unknown, 0)

/-- `ImprovedHandDetector.min_contour_area` (10000). -/
def improved_min_area : ℚ := 10000

/-- `ImprovedHandDetector.max_contour_area` (100000). -/
def improved_max_area : ℚ := 100000

/-- Data for `ImprovedHandDetector.detect_hands`: the largest contour's area
and the (opaque) result of `_extract_finger_landmarks` on it — `none` for a
`None` return, otherwise the landmark list. -/
structure ImpHandData where
  contourArea : ℚ
  landmarks : Option (List Tip)

/-- `ImprovedHandDetector.detect_hands` from the contour stage onward: the
area gate rejects areas below `improved_min_area` or above
`improved_max_area`; a detection needs at least 5 landmarks. -/
def detect_hands (d : Option ImpHandData) : Option (List Tip) :=
  match d with
  | none => none
  | some hd =>
      if hd.contourArea < improved_min_area ∨ improved_max_area < hd.contourArea then
        none
      else
        match hd.landmarks with
        | none => none
        | some lm => if 5 ≤ lm.length then some lm else none

/-- `ASLLetterDetector.stable_frames` (5): window capacity and full-window
requirement of the stability filter. -/
def stable_frames : ℕ := 5

/-- Appending a per-frame result to `detection_history` and evicting the
oldest entry once the length exceeds `stable_frames`
(`detect_asl_letter` lines 54-56). -/
def pushHistory (hist : List (Letter × ℚ)) (r : Letter × ℚ) : List (Letter × ℚ) :=
  let h := hist ++ [r]
  if stable_frames < h.length then h.drop 1 else h

/-- Occurrence count of a label in the history, as accumulated in
`letter_counts` in `_get_stable_detection`. -/
def countLabel (hist : List (Letter × ℚ)) (l : Letter) : ℕ :=
  (hist.map Prod.fst).count l

/-- First-occurrence order of the distinct labels of the history: the key
iteration order of the Python dict `letter_counts`. -/
def insertionKeys : List Letter → List Letter
  | [] => []
  | a :: t => a :: (insertionKeys t).filter (fun k => k ≠ a)

/-- Left fold of Python's `max(keys, key=cnt)`: the current best is replaced
only on a strictly larger count, so the first key attaining the maximum
wins ties. -/
def maxKeyAux (cnt : Letter → ℕ) (best : Letter) : List Letter → Letter
  | [] => best
  | k :: ks => maxKeyAux cnt (if cnt best < cnt k then k else best) ks

/-- `max(letter_counts, key=letter_counts.get)`: the plurality label of the
history, ties resolved to the earliest-inserted key.  `none` only for an
empty history (where Python's `max` would raise; unreachable behind the
full-window check). -/
def mostCommon (hist : List (Letter × ℚ)) : Option Letter :=
  match insertionKeys (hist.map Prod.fst) with
  | [] => none
  | k :: ks => some (maxKeyAux (countLabel hist) k ks)

/-- `ASLLetterDetector._get_stable_detection`: `(None, 0.0)` while the window
is not full; otherwise the plurality label is stable when its count reaches
`stable_frames * 0.6` (exactly 3 in IEEE arithmetic), with the mean of all
confidences in the window. -/
def get_stable_detection (hist : List (Letter × ℚ)) : Option Letter × ℚ :=
  if hist.length < stable_frames then (none, 0)
  else
    match mostCommon hist with
    | none => (none, 0)
    | some m =>
        if 3 ≤ countLabel hist m then
          (some m, (hist.map Prod.snd).sum / (hist.length : ℚ))
        else (none, 0)

/-- One call of `ASLLetterDetector.detect_asl_letter`, given the finger
detection outcome for the frame and the current history: returns the stable
result and the updated history. -/
def detect_asl_letter (hist : List (Letter × ℚ)) (det : Option (List Tip)) :
    (Option Letter × ℚ) × List (Letter × ℚ) :=
  let r := perFrameClassify det
  let h := pushHistory hist r
  (get_stable_detection h, h)

/-- `n` repeated calls of `detect_asl_letter` on the same frame (same finger
detection outcome) starting from a fresh detector: returns the history after
the calls and the result of the last call. -/
def callRepeat (det : Option (List Tip)) : ℕ → List (Letter × ℚ) × (Option Letter × ℚ)
  | 0 => ([], (none, 0))
  | n + 1 =>
      let prev := callRepeat det n
      let step := detect_asl_letter prev.1 det
      (step.2, step.1)

/-- History reached by pushing the same result `n` times into a fresh
stability window. -/
def pushRepeat (r : Letter × ℚ) : ℕ → List (Letter × ℚ)
  | 0 => []
  | n + 1 => pushHistory (pushRepeat r n) r

/-! Helper lemmas about the stability filter. -/

theorem mem_insertionKeys {l : Letter} : ∀ {L : List Letter}, l ∈ insertionKeys L ↔ l ∈ L := by
  intro L
  induction L with
  | nil => simp [insertionKeys]
  | cons a t ih =>
      by_cases hla : l = a
      · subst hla; simp [insertionKeys]
      · simp [insertionKeys, List.mem_filter, hla, ih]

theorem insertionKeys_ne_nil {L : List Letter} (h : L ≠ []) : insertionKeys L ≠ [] := by
  cases L with
  | nil => exact absurd rfl h
  | cons a t => simp [insertionKeys]

theorem maxKeyAux_cons (cnt : Letter → ℕ) (b k : Letter) (ks : List Letter) :
    maxKeyAux cnt b (k :: ks) = maxKeyAux cnt (if cnt b < cnt k then k else b) ks := rfl

theorem maxKeyAux_mem (cnt : Letter → ℕ) :
    ∀ (ks : List Letter) (b : Letter), maxKeyAux cnt b ks ∈ b :: ks := by
  intro ks
  induction ks with
  | nil => intro b; simp [maxKeyAux]
  | cons k t ih =>
      intro b
      rw [maxKeyAux_cons]
      have h := ih (if cnt b < cnt k then k else b)
      rcases List.mem_cons.mp h with h1 | h1
      · by_cases hc : cnt b < cnt k
        · rw [if_pos hc] at h1 ⊢
          rw [h1]
          exact List.mem_cons.mpr (Or.inr (List.mem_cons_self k t))
        · rw [if_neg hc] at h1 ⊢
          rw [h1]
          exact List.mem_cons.mpr (Or.inl rfl)
      · exact List.mem_cons.mpr (Or.inr (List.mem_cons.mpr (Or.inr h1)))

theorem maxKeyAux_le (cnt : Letter → ℕ) :
    ∀ (ks : List Letter) (b : Letter), ∀ k ∈ b :: ks, cnt k ≤ cnt (maxKeyAux cnt b ks) := by
  intro ks
  induction ks with
  | nil =>
      intro b k hk
      rcases List.mem_cons.mp hk with h | h
      · subst h; simp [maxKeyAux]
      · simp at h
  | cons k' t ih =>
      intro b k hk
      have hb : cnt b ≤ cnt (if cnt b < cnt k' then k' else b) := by
        by_cases hc : cnt b < cnt k' <;> simp [hc]; omega
      have hk' : cnt k' ≤ cnt (if cnt b < cnt k' then k' else b) := by
        by_cases hc : cnt b < cnt k' <;> simp [hc]; omega
      rw [maxKeyAux_cons]
      rcases List.mem_cons.mp hk with h | h
      · subst h
        exact le_trans hb (ih _ _ (List.mem_cons_self _ _))
      · rcases List.mem_cons.mp h with h1 | h1
        · subst h1
          exact le_trans hk' (ih _ _ (List.mem_cons_self _ _))
        · exact ih _ k (List.mem_cons.mpr (Or.inr h1))

theorem count_add_count_le_length {a b : Letter} (hab : a ≠ b) :
    ∀ L : List Letter, L.count a + L.count b ≤ L.length := by
  intro L
  induction L with
  | nil => simp
  | cons c t ih =>
      by_cases hca : a = c
      · subst hca
        have hcb : ¬ b = a := fun h => hab h.symm
        simp [List.count_cons, hcb]
        omega
      · by_cases hcb : b = c
        · subst hcb
          simp [List.count_cons, hca]
          omega
        · simp [List.count_cons, hca, hcb]
          omega

theorem countLabel_le_length (hist : List (Letter × ℚ)) (l : Letter) :
    countLabel hist l ≤ hist.length := by
  unfold countLabel
  calc (hist.map Prod.fst).count l ≤ (hist.map Prod.fst).length := List.count_le_length _ _
    _ = hist.length := List.length_map _ _

theorem mostCommon_eq_of_max (hist : List (Letter × ℚ)) (l : Letter)
    (hmem : l ∈ hist.map Prod.fst)
    (hmax : ∀ k, k ≠ l → countLabel hist k < countLabel hist l) :
    mostCommon hist = some l := by
  unfold mostCommon
  have hkeys : l ∈ insertionKeys (hist.map Prod.fst) := mem_insertionKeys.mpr hmem
  rcases hk : insertionKeys (hist.map Prod.fst) with _ | ⟨k, ks⟩
  · rw [hk] at hkeys; simp at hkeys
  · rw [hk] at hkeys
    have hm := maxKeyAux_mem (countLabel hist) ks k
    have hle := maxKeyAux_le (countLabel hist) ks k l hkeys
    by_cases heq : maxKeyAux (countLabel hist) k ks = l
    · exact congrArg some heq
    · exact absurd hle (not_le.mpr (hmax _ heq))

/-- Window-not-full case of `_get_stable_detection`. -/
theorem get_stable_short {hist : List (Letter × ℚ)} (h : hist.length < 5) :
    get_stable_detection hist = (none, 0) := by
  unfold get_stable_detection stable_frames
  rw [if_pos h]

/-- Full-window acceptance: a label with at least 3 of the 5 occurrences is
the unique plurality label and is returned with the mean of all 5
confidences. -/
theorem get_stable_accept {hist : List (Letter × ℚ)} (hlen : hist.length = 5)
    {l : Letter} (hcount : 3 ≤ countLabel hist l) :
    get_stable_detection hist = (some l, (hist.map Prod.snd).sum / 5) := by
  have hmem : l ∈ hist.map Prod.fst := by
    have : 0 < (hist.map Prod.fst).count l := by
      unfold countLabel at hcount; omega
    exact List.count_pos_iff.mp this
  have hmax : ∀ k, k ≠ l → countLabel hist k < countLabel hist l := by
    intro k hk
    have hsum : countLabel hist k + countLabel hist l ≤ hist.length := by
      unfold countLabel
      calc (hist.map Prod.fst).count k + (hist.map Prod.fst).count l
          ≤ (hist.map Prod.fst).length := count_add_count_le_length hk _
        _ = hist.length := List.length_map _ _
    omega
  unfold get_stable_detection stable_frames
  rw [if_neg (by omega), mostCommon_eq_of_max hist l hmem hmax]
  show (if 3 ≤ countLabel hist l then
      (some l, (List.map Prod.snd hist).sum / (hist.length : ℚ)) else (none, 0)) =
    (some l, (List.map Prod.snd hist).sum / 5)
  rw [if_pos hcount, hlen]
  norm_num

/-- Full-window rejection: when no label reaches 3 occurrences the stable
output is `(None, 0.0)`. -/
theorem get_stable_reject {hist : List (Letter × ℚ)} (hlen : hist.length = 5)
    (hall : ∀ l, countLabel hist l ≤ 2) :
    get_stable_detection hist = (none, 0) := by
  unfold get_stable_detection stable_frames
  rw [if_neg (by omega)]
  rcases hm : mostCommon hist with _ | m
  · rfl
  · show (if 3 ≤ countLabel hist m then
        (some m, (List.map Prod.snd hist).sum / (hist.length : ℚ)) else (none, 0)) =
      (none, 0)
    rw [if_neg (by have := hall m; omega)]

/-! Helper lemmas about the finger detector and the pipeline. -/

theorem findFingerTips_length_le (hull : List (ℤ × ℤ)) (centroid : Option (ℤ × ℤ))
    (h w : ℕ) : (findFingerTips hull centroid h w).length ≤ 5 := by
  unfold findFingerTips
  rcases centroid with _ | ⟨cx, cy⟩
  · simp
  · exact List.length_take_le 5 _

theorem findFingerTips_length_formula (hull : List (ℤ × ℤ)) (cx cy : ℤ) (h w : ℕ) :
    (findFingerTips hull (some (cx, cy)) h w).length =
      min 5 ((hull.filter (isTipCandidate cx cy)).length) := by
  unfold findFingerTips
  rw [List.length_take, List.length_insertionSort, List.length_map]

theorem findFingerTips_sorted (hull : List (ℤ × ℤ)) (cx cy : ℤ) (h w : ℕ) :
    List.Sorted tipLE (findFingerTips hull (some (cx, cy)) h w) :=
  (List.sorted_insertionSort tipLE _).sublist (List.take_sublist 5 _)

theorem findFingerTips_mem {hull : List (ℤ × ℤ)} {cx cy : ℤ} {h w : ℕ} {t : Tip}
    (ht : t ∈ findFingerTips hull (some (cx, cy)) h w) :
    ∃ p ∈ hull, isTipCandidate cx cy p = true ∧ t = normalizeTip h w p := by
  unfold findFingerTips at ht
  have h1 := (List.take_sublist 5 _).subset ht
  have h2 := (List.perm_insertionSort tipLE _).subset h1
  rcases List.mem_map.mp h2 with ⟨p, hp, hpt⟩
  rcases List.mem_filter.mp hp with ⟨hph, hcond⟩
  exact ⟨p, hph, hcond, hpt.symm⟩

theorem detect_fingers_some_def (hd : HandData) (h w : ℕ) :
    detect_fingers (some hd) h w =
      if hd.contourArea < min_contour_area then none
      else if 3 ≤ (findFingerTips hd.hull hd.centroid h w).length then
        some (findFingerTips hd.hull hd.centroid h w)
      else none := rfl

theorem detect_fingers_some_of {hd : HandData} {h w : ℕ}
    (h1 : ¬ hd.contourArea < min_contour_area)
    (h2 : 3 ≤ (findFingerTips hd.hull hd.centroid h w).length) :
    detect_fingers (some hd) h w = some (findFingerTips hd.hull hd.centroid h w) := by
  rw [detect_fingers_some_def, if_neg h1, if_pos h2]

theorem detect_fingers_none_of {hd : HandData} {h w : ℕ}
    (hc : hd.contourArea < min_contour_area ∨
      (findFingerTips hd.hull hd.centroid h w).length < 3) :
    detect_fingers (some hd) h w = none := by
  rw [detect_fingers_some_def]
  rcases hc with h1 | h2
  · rw [if_pos h1]
  · by_cases h1 : hd.contourArea < min_contour_area
    · rw [if_pos h1]
    · rw [if_neg h1, if_neg (by omega)]

theorem detect_fingers_bounds {d : Option HandData} {h w : ℕ} {tips : List Tip}
    (hd : detect_fingers d h w = some tips) : 3 ≤ tips.length ∧ tips.length ≤ 5 := by
  rcases d with _ | hdd
  · simp [detect_fingers] at hd
  · rw [detect_fingers_some_def] at hd
    by_cases h1 : hdd.contourArea < min_contour_area
    · rw [if_pos h1] at hd; exact absurd hd (by simp)
    · rw [if_neg h1] at hd
      by_cases h2 : 3 ≤ (findFingerTips hdd.hull hdd.centroid h w).length
      · rw [if_pos h2] at hd
        have := Option.some.inj hd
        subst this
        exact ⟨h2, findFingerTips_length_le _ _ _ _⟩
      · rw [if_neg h2] at hd; exact absurd hd (by simp)

/-! Helper lemmas about repeated pushes and repeated calls. -/

theorem pushRepeat_eq (r : Letter × ℚ) : ∀ n, pushRepeat r n = List.replicate (min n 5) r := by
  intro n
  induction n with
  | zero => simp [pushRepeat]
  | succ n ih =>
      show pushHistory (pushRepeat r n) r = _
      rw [ih]
      unfold pushHistory stable_frames
      by_cases h : n < 5
      · have hmin : min n 5 = n := by omega
        rw [hmin, if_neg (by simp; omega)]
        have hmin2 : min (n + 1) 5 = n + 1 := by omega
        rw [hmin2, List.replicate_succ']
      · have hmin : min n 5 = 5 := by omega
        rw [hmin, if_pos (by simp)]
        have hmin2 : min (n + 1) 5 = 5 := by omega
        rw [hmin2, ← List.replicate_succ' 5 r, List.replicate_succ]
        simp

theorem callRepeat_hist (det : Option (List Tip)) :
    ∀ n, (callRepeat det n).1 = pushRepeat (perFrameClassify det) n := by
  intro n
  induction n with
  | zero => rfl
  | succ n ih => simp [callRepeat, detect_asl_letter, pushRepeat, ih]

theorem callRepeat_res (det : Option (List Tip)) (n : ℕ) :
    (callRepeat det (n + 1)).2 =
      get_stable_detection (pushRepeat (perFrameClassify det) (n + 1)) := by
  show (detect_asl_letter (callRepeat det n).1 det).1 = _
  rw [callRepeat_hist]
  rfl

theorem countLabel_replicate (l : Letter) (c : ℚ) (n : ℕ) :
    countLabel (List.replicate n (l, c)) l = n := by
  unfold countLabel
  rw [List.map_replicate]
  simp [List.count_replicate]

theorem sum_snd_replicate (l : Letter) (c : ℚ) (n : ℕ) :
    ((List.replicate n (l, c)).map Prod.snd).sum = n * c := by
  rw [List.map_replicate, List.sum_replicate]
  exact_mod_cast nsmul_eq_mul n c

/-! Helper lemmas about the classifiers. -/

theorem classify_conf_bounds (n : ℕ) (tips : List Tip) :
    0 ≤ (classify_by_finger_count n tips).2 ∧ (classify_by_finger_count n tips).2 ≤ 1 ∧
      (classify_by_finger_count n tips).2 ≤ 17/20 := by
  rcases tips with _ | ⟨t, rest⟩ <;>
    simp only [classify_by_finger_count, distinguish_a_or_d] <;>
    split_ifs <;> norm_num

theorem perFrame_conf_bounds (det : Option (List Tip)) :
    0 ≤ (perFrameClassify det).2 ∧ (perFrameClassify det).2 ≤ 1 ∧
      (perFrameClassify det).2 ≤ 17/20 := by
  rcases det with _ | tips
  · norm_num [perFrameClassify]
  · exact classify_conf_bounds tips.length tips

theorem simple_conf_bounds (det : Option (List Tip)) :
    0 ≤ (simple_detect_letter det).2 ∧ (simple_detect_letter det).2 ≤ 1 ∧
      (simple_detect_letter det).2 ≤ 17/20 := by
  rcases det with _ | tips
  · norm_num [simple_detect_letter]
  · rcases tips with _ | ⟨t, rest⟩ <;>
      simp only [simple_detect_letter] <;>
      split_ifs <;> norm_num

/-! Claim theorems. -/

/-- Claim C1: the stability filter returns a stable result only once the
window holds 5 entries; a label with at least 3 of the 5 occurrences (the
60 percent threshold, which it then uniquely attains as plurality) is
returned with the arithmetic mean of all 5 confidences in the window, and
when no label reaches 3 occurrences — in particular any 2/2/1 split — the
output is `(None, 0.0)`. -/
theorem stability_filter_semantics_C1 :
    ∀ hist : List (Letter × ℚ),
      (hist.length < 5 → get_stable_detection hist = (none, 0)) ∧
      (hist.length = 5 → ∀ l, 3 ≤ countLabel hist l →
        get_stable_detection hist = (some l, (hist.map Prod.snd).sum / 5)) ∧
      (hist.length = 5 → (∀ l, countLabel hist l ≤ 2) →
        get_stable_detection hist = (none, 0)) :=
  fun _ => ⟨fun h => get_stable_short h,
    fun hlen _ hc => get_stable_accept hlen hc,
    fun hlen hall => get_stable_reject hlen hall⟩

/-- Witness for C1: a full window with 3 A's and 2 B's is stable A with the
mean of all five confidences; a 2/2/1 window and a 1-entry window yield
`(None, 0.0)`. -/
theorem stability_filter_semantics_C1_witness :
    get_stable_detection
        [(Letter.A, 7/10), (Letter.A, 7/10), (Letter.A, 7/10),
         (Letter.B, 3/5), (Letter.B, 3/5)] = (some Letter.A, 33/50) ∧
    get_stable_detection
        [(Letter.A, 7/10), (Letter.A, 7/10), (Letter.B, 3/5),
         (Letter.B, 3/5), (Letter.C, 1/2)] = (none, 0) ∧
    get_stable_detection [(Letter.A, 7/10)] = (none, 0) := by
  refine ⟨?_, ?_, ?_⟩
  · have h := (stability_filter_semantics_C1
      [(Letter.A, 7/10), (Letter.A, 7/10), (Letter.A, 7/10),
       (Letter.B, 3/5), (Letter.B, 3/5)]).2.1 (by decide) Letter.A (by decide)
    rw [h]
    norm_num
  · exact (stability_filter_semantics_C1
      [(Letter.A, 7/10), (Letter.A, 7/10), (Letter.B, 3/5),
       (Letter.B, 3/5), (Letter.C, 1/2)]).2.2 (by decide) (by decide)
  · exact (stability_filter_semantics_C1 [(Letter.A, 7/10)]).1 (by decide)

/-- Claim C2: an input whose hull analysis yields zero qualifying tip
candidates has finger count 0, is not reported as a detection, and both
classifiers return label E with confidence within the closed interval
from 0.70 to 0.80 (0.7 on the image path, 0.8 in the 0-finger rule and in
the simple detector). -/
theorem fist_invariant_C2 :
    ∀ (hd : HandData) (h w : ℕ),
      findFingerTips hd.hull hd.centroid h w = [] →
      (findFingerTips hd.hull hd.centroid h w).length = 0 ∧
      detect_fingers (some hd) h w = none ∧
      perFrameClassify (detect_fingers (some hd) h w) = (Letter.E, 7/10) ∧
      (7/10 ≤ (7 : ℚ)/10 ∧ (7 : ℚ)/10 ≤ 4/5) ∧
      simple_detect_letter (detect_fingers (some hd) h w) = (Letter.E, 4/5) ∧
      (7/10 ≤ (4 : ℚ)/5 ∧ (4 : ℚ)/5 ≤ 4/5) ∧
      (∀ tips : List Tip, tips.length = 0 →
        classify_by_finger_count tips.length tips = (Letter.E, 4/5)) := by
  intro hd h w hnil
  have hn : detect_fingers (some hd) h w = none :=
    detect_fingers_none_of (Or.inr (by rw [hnil]; simp))
  rw [hn, hnil]
  refine ⟨rfl, rfl, rfl, by norm_num, rfl, by norm_num, ?_⟩
  intro tips hlen
  rw [hlen]
  rfl

/-- Witness for C2 at a contour with zero qualifying hull vertices. -/
theorem fist_invariant_C2_witness :
    detect_fingers (some ⟨6000, [], none⟩) 480 640 = none ∧
    perFrameClassify (detect_fingers (some ⟨6000, [], none⟩) 480 640) = (Letter.E, 7/10) := by
  have h := fist_invariant_C2 ⟨6000, [], none⟩ 480 640 rfl
  exact ⟨h.2.1, h.2.2.1⟩

/-- Claim C3: with exactly one detected tip, normalized x strictly below 0.4
classifies as A with confidence 0.70, x at least 0.4 classifies as D with
confidence 0.70, and the boundary x = 0.4 takes the D branch, in both the
main and the simple classifier. -/
theorem a_d_boundary_C3 :
    ∀ t : Tip,
      (t.x < 2/5 → classify_by_finger_count [t].length [t] = (Letter.A, 7/10) ∧
        simple_detect_letter (some [t]) = (Letter.A, 7/10)) ∧
      (2/5 ≤ t.x → classify_by_finger_count [t].length [t] = (Letter.D, 7/10) ∧
        simple_detect_letter (some [t]) = (Letter.D, 7/10)) ∧
      (t.x = 2/5 → classify_by_finger_count [t].length [t] = (Letter.D, 7/10)) := by
  intro t
  have hc : classify_by_finger_count [t].length [t] =
      if t.x < 2/5 then (Letter.A, 7/10) else (Letter.D, 7/10) := rfl
  have hs : simple_detect_letter (some [t]) =
      if t.x < 2/5 then (Letter.A, 7/10) else (Letter.D, 7/10) := rfl
  refine ⟨fun h => ?_, fun h => ?_, fun h => ?_⟩
  · rw [hc, hs, if_pos h]
    exact ⟨rfl, rfl⟩
  · rw [hc, hs, if_neg (not_lt.mpr h)]
    exact ⟨rfl, rfl⟩
  · rw [hc, h, if_neg (lt_irrefl _)]

/-- Witness for C3 at tips with x = 0.1, x = 0.9 and x = 0.4. -/
theorem a_d_boundary_C3_witness :
    classify_by_finger_count [(⟨1/10, 1/2, 0⟩ : Tip)].length [⟨1/10, 1/2, 0⟩] =
      (Letter.A, 7/10) ∧
    classify_by_finger_count [(⟨9/10, 1/2, 0⟩ : Tip)].length [⟨9/10, 1/2, 0⟩] =
      (Letter.D, 7/10) ∧
    classify_by_finger_count [(⟨2/5, 1/2, 0⟩ : Tip)].length [⟨2/5, 1/2, 0⟩] =
      (Letter.D, 7/10) :=
  ⟨((a_d_boundary_C3 ⟨1/10, 1/2, 0⟩).1 (by norm_num)).1,
   ((a_d_boundary_C3 ⟨9/10, 1/2, 0⟩).2.1 (by norm_num)).1,
   (a_d_boundary_C3 ⟨2/5, 1/2, 0⟩).2.2 rfl⟩

theorem detect_hands_some_def (im : ImpHandData) :
    detect_hands (some im) =
      if im.contourArea < improved_min_area ∨ improved_max_area < im.contourArea then none
      else
        match im.landmarks with
        | none => none
        | some lm => if 5 ≤ lm.length then some lm else none := rfl

/-- Claim C4 counterexample: the primary finger detector accepts a contour
of area 60000, strictly above its configured `max_contour_area` of 50000,
and passes it to hull analysis — the upper bound of the area band is never
enforced in `detect_fingers`. -/
theorem area_band_C4_counterexample :
    max_contour_area <
      (⟨60000, [(100, 100), (300, 120), (500, 90)], some (320, 400)⟩ : HandData).contourArea ∧
    detect_fingers
      (some ⟨60000, [(100, 100), (300, 120), (500, 90)], some (320, 400)⟩) 480 640 ≠ none := by
  constructor
  · show max_contour_area < (60000 : ℚ)
    norm_num [max_contour_area]
  · rw [detect_fingers_some_of
      (show ¬ (60000 : ℚ) < min_contour_area by norm_num [min_contour_area])
      (by rw [findFingerTips_length_formula]; decide)]
    simp

/-- Claim C4 amended: `FingerDetector.detect_fingers` rejects only contours
with area below `min_contour_area` (its `max_contour_area` is never
consulted), so a contour reaching its hull analysis is guaranteed only the
lower bound; `ImprovedHandDetector.detect_hands` rejects areas outside its
band on both sides, so a contour reaching its landmark extraction has area
within that band. -/
theorem area_band_C4_amended :
    ∀ (hd : HandData) (h w : ℕ) (tips : List Tip) (im : ImpHandData) (lm : List Tip),
      (detect_fingers (some hd) h w = some tips → min_contour_area ≤ hd.contourArea) ∧
      (im.contourArea < improved_min_area ∨ improved_max_area < im.contourArea →
        detect_hands (some im) = none) ∧
      (detect_hands (some im) = some lm →
        improved_min_area ≤ im.contourArea ∧ im.contourArea ≤ improved_max_area) := by
  intro hd h w tips im lm
  refine ⟨?_, ?_, ?_⟩
  · intro hsome
    by_contra hlt
    rw [detect_fingers_none_of (Or.inl (not_le.mp hlt))] at hsome
    exact absurd hsome (by simp)
  · intro hcond
    rw [detect_hands_some_def, if_pos hcond]
  · intro hsome
    rw [detect_hands_some_def] at hsome
    by_cases hc : im.contourArea < improved_min_area ∨ improved_max_area < im.contourArea
    · rw [if_pos hc] at hsome
      exact absurd hsome (by simp)
    · push_neg at hc
      exact hc

/-- Witness for the amended C4: a contour of area 6000 accepted by the
primary detector indeed satisfies the lower bound, and the improved
detector rejects area 1. -/
theorem area_band_C4_amended_witness :
    min_contour_area ≤
      (⟨6000, [(100, 100), (300, 120), (500, 90)], some (320, 400)⟩ : HandData).contourArea ∧
    detect_hands (some ⟨1, none⟩) = none := by
  constructor
  · exact (area_band_C4_amended
      ⟨6000, [(100, 100), (300, 120), (500, 90)], some (320, 400)⟩ 480 640
      (findFingerTips [(100, 100), (300, 120), (500, 90)] (some (320, 400)) 480 640)
      ⟨1, none⟩ []).1
      (detect_fingers_some_of
        (show ¬ (6000 : ℚ) < min_contour_area by norm_num [min_contour_area])
        (by rw [findFingerTips_length_formula]; decide))
  · exact (area_band_C4_amended
      ⟨6000, [(100, 100), (300, 120), (500, 90)], some (320, 400)⟩ 480 640 [] ⟨1, none⟩ []).2.1
      (Or.inl (show (1 : ℚ) < improved_min_area by norm_num [improved_min_area]))

/-- Claim C5 counterexample: a contour rejected by the area bound (area 1)
does propagate without an exception, but the per-frame outcome is the
fist interpretation `(E, 0.7)`, not the claimed `{label: none,
confidence: 0}`. -/
theorem nohand_C5_counterexample :
    detect_fingers (some ⟨1, [], none⟩) 480 640 = none ∧
    perFrameResult (detect_fingers (some ⟨1, [], none⟩) 480 640) ≠ (none, 0) := by
  have hn : detect_fingers (some ⟨1, [], none⟩) 480 640 = none :=
    detect_fingers_none_of
      (Or.inl (show (1 : ℚ) < min_contour_area by norm_num [min_contour_area]))
  refine ⟨hn, ?_⟩
  rw [hn]
  simp [perFrameResult, perFrameClassify]

/-- Claim C5 amended: whenever the contour is rejected by the area bound or
fewer than 3 tip candidates are found, the finger detector reports no
detection and the per-frame outcome propagates as the normal return
`ClassificationResult{label: E, confidence: 0.7}` (the fist
interpretation), never as a raised error. -/
theorem nohand_C5_amended :
    ∀ (hd : HandData) (h w : ℕ),
      hd.contourArea < min_contour_area ∨
        (findFingerTips hd.hull hd.centroid h w).length < 3 →
      detect_fingers (some hd) h w = none ∧
      perFrameResult (detect_fingers (some hd) h w) = (some Letter.E, 7/10) := by
  intro hd h w hc
  have hn := detect_fingers_none_of hc
  rw [hn]
  exact ⟨rfl, rfl⟩

/-- Witness for the amended C5 at the area-1 contour. -/
theorem nohand_C5_amended_witness :
    detect_fingers (some ⟨1, [(10, 10)], none⟩) 480 640 = none ∧
    perFrameResult (detect_fingers (some ⟨1, [(10, 10)], none⟩) 480 640) =
      (some Letter.E, 7/10) :=
  nohand_C5_amended ⟨1, [(10, 10)], none⟩ 480 640
    (Or.inl (show (1 : ℚ) < min_contour_area by norm_num [min_contour_area]))

/-- Claim C6: every classification rule, in both detectors and on both the
no-detection and the detection path, yields a confidence within the unit
interval and at most 0.85. -/
theorem confidence_cap_C6 :
    ∀ (n : ℕ) (tips : List Tip) (det : Option (List Tip)),
      (0 ≤ (classify_by_finger_count n tips).2 ∧ (classify_by_finger_count n tips).2 ≤ 1 ∧
        (classify_by_finger_count n tips).2 ≤ 17/20) ∧
      (0 ≤ (perFrameClassify det).2 ∧ (perFrameClassify det).2 ≤ 1 ∧
        (perFrameClassify det).2 ≤ 17/20) ∧
      (0 ≤ (simple_detect_letter det).2 ∧ (simple_detect_letter det).2 ≤ 1 ∧
        (simple_detect_letter det).2 ≤ 17/20) :=
  fun n tips det =>
    ⟨classify_conf_bounds n tips, perFrame_conf_bounds det, simple_conf_bounds det⟩

/-- Claim C7: every emitted tip is the normalization of a hull vertex whose
squared distance from the centroid strictly exceeds 50 squared and which
lies strictly above the centroid; the emitted list is sorted ascending by
x-coordinate, holds at most 5 points, and, for in-frame hull vertices and
positive frame dimensions, its coordinates lie in the unit interval. -/
theorem tip_qualification_C7 :
    ∀ (hull : List (ℤ × ℤ)) (cx cy : ℤ) (h w : ℕ),
      (∀ t ∈ findFingerTips hull (some (cx, cy)) h w,
        ∃ p ∈ hull, 2500 < (p.1 - cx) * (p.1 - cx) + (p.2 - cy) * (p.2 - cy) ∧
          p.2 < cy ∧ t = normalizeTip h w p) ∧
      List.Sorted tipLE (findFingerTips hull (some (cx, cy)) h w) ∧
      (findFingerTips hull (some (cx, cy)) h w).length ≤ 5 ∧
      (0 < h → 0 < w →
        (∀ p ∈ hull, 0 ≤ p.1 ∧ p.1 ≤ (w : ℤ) ∧ 0 ≤ p.2 ∧ p.2 ≤ (h : ℤ)) →
        ∀ t ∈ findFingerTips hull (some (cx, cy)) h w,
          0 ≤ t.x ∧ t.x ≤ 1 ∧ 0 ≤ t.y ∧ t.y ≤ 1) := by
  intro hull cx cy h w
  refine ⟨?_, findFingerTips_sorted hull cx cy h w, findFingerTips_length_le hull _ h w, ?_⟩
  · intro t ht
    rcases findFingerTips_mem ht with ⟨p, hp, hcond, hteq⟩
    unfold isTipCandidate at hcond
    rw [decide_eq_true_eq] at hcond
    exact ⟨p, hp, hcond.1, hcond.2, hteq⟩
  · intro hh hw hbounds t ht
    rcases findFingerTips_mem ht with ⟨p, hp, _, hteq⟩
    rcases hbounds p hp with ⟨h1, h2, h3, h4⟩
    have hwq : (0 : ℚ) < (w : ℚ) := by exact_mod_cast hw
    have hhq : (0 : ℚ) < (h : ℚ) := by exact_mod_cast hh
    subst hteq
    unfold normalizeTip
    refine ⟨?_, ?_, ?_, ?_⟩
    · exact div_nonneg (by exact_mod_cast h1) (le_of_lt hwq)
    · rw [div_le_one hwq]
      exact_mod_cast h2
    · exact div_nonneg (by exact_mod_cast h3) (le_of_lt hhq)
    · rw [div_le_one hhq]
      exact_mod_cast h4

/-- Witness for C7 at a concrete hull, centroid and frame size. -/
theorem tip_qualification_C7_witness :
    (∀ t ∈ findFingerTips [(100, 100), (300, 120), (500, 90)] (some (320, 400)) 480 640,
      ∃ p ∈ [((100 : ℤ), (100 : ℤ)), (300, 120), (500, 90)],
        2500 < (p.1 - 320) * (p.1 - 320) + (p.2 - 400) * (p.2 - 400) ∧
          p.2 < 400 ∧ t = normalizeTip 480 640 p) ∧
    List.Sorted tipLE
      (findFingerTips [(100, 100), (300, 120), (500, 90)] (some (320, 400)) 480 640) ∧
    (findFingerTips [(100, 100), (300, 120), (500, 90)] (some (320, 400)) 480 640).length ≤ 5 ∧
    (∀ t ∈ findFingerTips [(100, 100), (300, 120), (500, 90)] (some (320, 400)) 480 640,
      0 ≤ t.x ∧ t.x ≤ 1 ∧ 0 ≤ t.y ∧ t.y ≤ 1) := by
  have h := tip_qualification_C7 [(100, 100), (300, 120), (500, 90)] 320 400 480 640
  exact ⟨h.1, h.2.1, h.2.2.1, h.2.2.2 (by norm_num) (by norm_num) (by decide)⟩

/-- Claim C8: pushing the same per-frame result 5 consecutive times into a
fresh stability window yields a stable result with that result's label and
its own confidence (the mean of 5 identical values). -/
theorem monotonic_windowing_C8 :
    ∀ r : Letter × ℚ, get_stable_detection (pushRepeat r 5) = (some r.1, r.2) := by
  intro r
  rcases r with ⟨l, c⟩
  rw [pushRepeat_eq]
  rw [show min 5 5 = 5 from rfl]
  have hlen : (List.replicate 5 (l, c)).length = 5 := by simp
  have hcount : 3 ≤ countLabel (List.replicate 5 (l, c)) l := by
    rw [countLabel_replicate]
    omega
  rw [get_stable_accept hlen hcount, sum_snd_replicate]
  have : ((5 : ℕ) : ℚ) * c / 5 = c := by
    push_cast
    ring
  rw [this]

/-- Claim C9 counterexample: five repeated calls of the stateful pipeline
on one and the same frame (a frame with no finger detection) do not return
identical results — the 4th call returns `(None, 0.0)` while the 5th
returns `(E, 0.7)`, because the hidden stability window fills up. -/
theorem determinism_C9_counterexample :
    (callRepeat none 4).2 ≠ (callRepeat none 5).2 := by
  have h4 : (callRepeat none 4).2 = (none, 0) := by
    rw [callRepeat_res none 3, pushRepeat_eq]
    exact get_stable_short (by simp)
  have h5 : (callRepeat none 5).2 = (some Letter.E, 7/10) := by
    rw [callRepeat_res none 4, pushRepeat_eq]
    rw [show perFrameClassify none = (Letter.E, 7/10) from rfl]
    rw [show min 5 5 = 5 from rfl]
    have hcount : 3 ≤ countLabel (List.replicate 5 (Letter.E, 7/10)) Letter.E := by
      rw [countLabel_replicate]
      omega
    rw [get_stable_accept (by simp) hcount, sum_snd_replicate]
    have : ((5 : ℕ) : ℚ) * (7/10) / 5 = 7/10 := by
      push_cast
      ring
    rw [this]
  rw [h4, h5]
  simp

/-- Claim C9 amended: the per-frame classification and the pipeline are
deterministic functions of the frame data and the window state (no hidden
randomness), but the returned stable result of repeated calls on a fixed
frame varies while the window fills; from the 5th repeated call onward the
result is constant. -/
theorem determinism_C9_amended :
    ∀ (det : Option (List Tip)) (n : ℕ), 5 ≤ n →
      perFrameClassify det = perFrameClassify det ∧
      (callRepeat det n).2 = (callRepeat det 5).2 := by
  intro det n hn
  refine ⟨rfl, ?_⟩
  obtain ⟨m, rfl⟩ : ∃ m, n = m + 1 := ⟨n - 1, by omega⟩
  rw [callRepeat_res det m, callRepeat_res det 4, pushRepeat_eq, pushRepeat_eq]
  rw [show min (m + 1) 5 = 5 from by omega, show min (4 + 1) 5 = 5 from rfl]

/-- Witness for the amended C9: the 9th repeated call agrees with the 5th. -/
theorem determinism_C9_amended_witness :
    (callRepeat none 9).2 = (callRepeat none 5).2 :=
  (determinism_C9_amended none 9 (by norm_num)).2

/-- Claim C10: from the image entry point the per-frame label of either
classifier is one of E, C, B, because a reported detection always carries
between 3 and 5 tips; the rules for finger counts 1, 2 and above 5 are
unreachable from image input. -/
theorem reachability_C10 :
    ∀ (d : Option HandData) (h w : ℕ),
      ((perFrameClassify (detect_fingers d h w)).1 = Letter.E ∨
        (perFrameClassify (detect_fingers d h w)).1 = Letter.C ∨
        (perFrameClassify (detect_fingers d h w)).1 = Letter.B) ∧
      ((simple_detect_letter (detect_fingers d h w)).1 = Letter.E ∨
        (simple_detect_letter (detect_fingers d h w)).1 = Letter.C ∨
        (simple_detect_letter (detect_fingers d h w)).1 = Letter.B) ∧
      (∀ tips, detect_fingers d h w = some tips → 3 ≤ tips.length ∧ tips.length ≤ 5) := by
  intro d h w
  rcases hdf : detect_fingers d h w with _ | tips
  · refine ⟨Or.inl rfl, Or.inl rfl, ?_⟩
    intro tips h
    exact absurd h (by simp)
  · have hb := detect_fingers_bounds hdf
    have hlen : tips.length = 3 ∨ tips.length = 4 ∨ tips.length = 5 := by omega
    refine ⟨?_, ?_, ?_⟩
    · have hpf : perFrameClassify (some tips) = classify_by_finger_count tips.length tips := rfl
      rw [hpf]
      rcases hlen with h3 | h4 | h5
      · rw [h3]; exact Or.inr (Or.inl rfl)
      · rw [h4]; exact Or.inr (Or.inl rfl)
      · rw [h5]; exact Or.inr (Or.inr rfl)
    · rcases hlen with h3 | h4 | h5
      · simp [simple_detect_letter, h3]
      · simp [simple_detect_letter, h4]
      · simp [simple_detect_letter, h5]
    · intro tips' h'
      cases Option.some.inj h'
      exact hb

/-- Witness for C10: a concrete accepted contour yields between 3 and 5
tips. -/
theorem reachability_C10_witness :
    3 ≤ (findFingerTips [(100, 100), (300, 120), (500, 90)] (some (320, 400)) 480 640).length ∧
    (findFingerTips [(100, 100), (300, 120), (500, 90)] (some (320, 400)) 480 640).length ≤ 5 :=
  (reachability_C10
    (some ⟨6000, [(100, 100), (300, 120), (500, 90)], some (320, 400)⟩) 480 640).2.2
    (findFingerTips [(100, 100), (300, 120), (500, 90)] (some (320, 400)) 480 640)
    (detect_fingers_some_of
      (show ¬ (6000 : ℚ) < min_contour_area by norm_num [min_contour_area])
      (by rw [findFingerTips_length_formula]; decide))

end SignTranslator
